import Mathlib

/-!
Verification of the rental-analysis pipeline (main_v4.py) against its
natural-language specification.  The Python functions relevant to the
claims are shallowly embedded as executable Lean definitions over
`List Char` (strings), `ℤ`/`ℕ` (integers) and `ℚ` (exact numeric
values); I/O boundaries (CSV loading per week) are abstracted as an
explicit `loadWeek` function parameter.
-/

namespace RentalApp

/-! ### Character helpers (ASCII codes used to avoid quote literals) -/

/-- The single-quote character `'` (minute mark in DMS strings). -/
def minuteMark : Char := Char.ofNat 39

/-- The double-quote character (second mark in DMS strings). -/
def secondMark : Char := Char.ofNat 34

/-- Python `str.startswith` on character lists. -/
def isPrefixB : List Char → List Char → Bool
  | [], _ => true
  | _ :: _, [] => false
  | a :: as, b :: bs => a == b && isPrefixB as bs

/-- Python substring test (`needle in hay`) on character lists. -/
def isSubstrB (n : List Char) : List Char → Bool
  | [] => n.isEmpty
  | c :: cs => isPrefixB n (c :: cs) || isSubstrB n cs

/-- Python `str.strip()` (whitespace trim on both ends). -/
def pyStrip (s : List Char) : List Char :=
  ((s.dropWhile Char.isWhitespace).reverse.dropWhile Char.isWhitespace).reverse

/-! ### Coordinate normalizer: `parse_dms_coordinate` (main_v4.py 468-504)

The Python function runs
`re.findall(r"(\d+)°(\d+)'(\d+(?:\.\d+)?)\"([NSEW])", s)` and, when at
least two matches with one N/S and one E/W component exist, converts
`deg + min/60 + sec/3600`, negating for S and W; otherwise it returns
`(0, 0)`.  `findall` semantics (leftmost, non-overlapping, greedy digit
runs) are reproduced by a scanner over the character list. -/

/-- Hemisphere letter captured by the DMS regular expression. -/
inductive Hemisphere
  | N | S | E | W
deriving DecidableEq

/-- One match of the DMS pattern: degree, minute, second, hemisphere. -/
structure DMSMatch where
  deg : ℕ
  minu : ℕ
  sec : ℚ
  dir : Hemisphere
deriving DecidableEq

/-- Numeric value of a digit run (regex group `\d+`). -/
def natOfDigits (ds : List Char) : ℕ :=
  ds.foldl (fun a c => 10 * a + (c.toNat - 48)) 0

/-- Fractional value of the digits after the decimal point. -/
def fracOfDigits (ds : List Char) : ℚ :=
  (natOfDigits ds : ℚ) / ((10 : ℚ) ^ ds.length)

/-- Try to match the DMS pattern at the head of `s`; on success return
the captured groups and the remaining characters. -/
def parseDMSAt (s : List Char) : Option (DMSMatch × List Char) :=
  let p1 := s.span Char.isDigit
  if p1.1 = [] then none else
  match p1.2 with
  | [] => none
  | c1 :: r2 =>
    if c1 ≠ '°' then none else
    let p2 := r2.span Char.isDigit
    if p2.1 = [] then none else
    match p2.2 with
    | [] => none
    | c2 :: r4 =>
      if c2 ≠ minuteMark then none else
      let p3 := r4.span Char.isDigit
      if p3.1 = [] then none else
      let sp : ℚ × List Char :=
        match p3.2 with
        | c3 :: r6 =>
          if c3 = '.' then
            let p4 := r6.span Char.isDigit
            if p4.1 = [] then ((natOfDigits p3.1 : ℚ), c3 :: r6)
            else ((natOfDigits p3.1 : ℚ) + fracOfDigits p4.1, p4.2)
          else ((natOfDigits p3.1 : ℚ), c3 :: r6)
        | [] => ((natOfDigits p3.1 : ℚ), [])
      match sp.2 with
      | c4 :: c5 :: r8 =>
        if c4 ≠ secondMark then none else
        if c5 = 'N' then some (⟨natOfDigits p1.1, natOfDigits p2.1, sp.1, .N⟩, r8)
        else if c5 = 'S' then some (⟨natOfDigits p1.1, natOfDigits p2.1, sp.1, .S⟩, r8)
        else if c5 = 'E' then some (⟨natOfDigits p1.1, natOfDigits p2.1, sp.1, .E⟩, r8)
        else if c5 = 'W' then some (⟨natOfDigits p1.1, natOfDigits p2.1, sp.1, .W⟩, r8)
        else none
      | _ => none

/-- Scanner for `re.findall`: try the pattern at every position,
left to right, continuing after each match (non-overlapping).  The fuel
argument (initially the string length) bounds the recursion; each step
consumes at least one character, so the fuel never runs out. -/
def findAllGo : ℕ → List Char → List DMSMatch
  | 0, _ => []
  | _ + 1, [] => []
  | fuel + 1, c :: rest =>
    match parseDMSAt (c :: rest) with
    | some (m, rest') => m :: findAllGo fuel rest'
    | none => findAllGo fuel rest

/-- All matches of the DMS pattern in `s` (Python `re.findall`). -/
def findAllDMS (s : List Char) : List DMSMatch :=
  findAllGo s.length s

/-- The match list computed by `parse_dms_coordinate`: empty for the
falsy / `'nan'` early return, else `findall` on the stripped string. -/
def dms_matches (s : List Char) : List DMSMatch :=
  if s = [] ∨ s = ("nan").data then [] else findAllDMS (pyStrip s)

/-- Whether a match is a latitude (N/S) component. -/
def isNS (m : DMSMatch) : Bool := m.dir = Hemisphere.N ∨ m.dir = Hemisphere.S

/-- Whether a match is a longitude (E/W) component. -/
def isEW (m : DMSMatch) : Bool := m.dir = Hemisphere.E ∨ m.dir = Hemisphere.W

/-- The loop `for match in matches: if direction in [N,S]: lat_match = match`
keeps the last N/S match. -/
def lat_match (s : List Char) : Option DMSMatch :=
  ((dms_matches s).filter isNS).getLast?

/-- Last E/W match, symmetric to `lat_match`. -/
def lng_match (s : List Char) : Option DMSMatch :=
  ((dms_matches s).filter isEW).getLast?

/-- `deg + min/60 + sec/3600`. -/
def dmsValue (m : DMSMatch) : ℚ :=
  (m.deg : ℚ) + (m.minu : ℚ) / 60 + m.sec / 3600

/-- `parse_dms_coordinate`: the coordinate normalizer.  Total; returns
`(0, 0)` on every input that does not yield two matches with both an
N/S and an E/W component. -/
def parse_dms_coordinate (s : List Char) : ℚ × ℚ :=
  if 2 ≤ (dms_matches s).length then
    match lat_match s, lng_match s with
    | some lm, some em =>
      ((if lm.dir = Hemisphere.S then -(dmsValue lm) else dmsValue lm),
       (if em.dir = Hemisphere.W then -(dmsValue em) else dmsValue em))
    | some _, none => (0, 0)
    | none, _ => (0, 0)
  else (0, 0)

/-- The success condition of the DMS branch, as a boolean. -/
def dms_parseable (s : List Char) : Bool :=
  (2 ≤ (dms_matches s).length : Bool) && (lat_match s).isSome && (lng_match s).isSome

/-- Modelled from the spec (section 4.1 step 2): extraction of all loose
decimal numeric substrings, a fallback the spec describes but which is
absent from `parse_dms_coordinate` in the source. -/
def numScanGo : ℕ → List Char → List ℚ
  | 0, _ => []
  | _ + 1, [] => []
  | fuel + 1, c :: cs =>
    if c.isDigit then
      let p1 := (c :: cs).span Char.isDigit
      match p1.2 with
      | d :: r2 =>
        if d = '.' then
          let p2 := r2.span Char.isDigit
          if p2.1 = [] then (natOfDigits p1.1 : ℚ) :: numScanGo fuel p1.2
          else ((natOfDigits p1.1 : ℚ) + fracOfDigits p2.1) :: numScanGo fuel p2.2
        else (natOfDigits p1.1 : ℚ) :: numScanGo fuel p1.2
      | [] => [(natOfDigits p1.1 : ℚ)]
    else numScanGo fuel cs

/-- Modelled from the spec: the list of numeric substrings of `s`. -/
def specNumericSubstrings (s : List Char) : List ℚ :=
  numScanGo s.length s

/-- Rounding to six decimal places, as described by the spec for the
DMS conversion (the source performs no such rounding). -/
def round6 (q : ℚ) : ℚ :=
  ((round (q * 1000000) : ℤ) : ℚ) / 1000000

/-! ### The property record

One listing observation, the Python dict built by `process_dataframe`.
Keys that a record may not have yet (derived bookkeeping fields,
`distance`) are modelled with default values. -/

/-- One listing observation within one week. -/
structure PropertyRecord where
  property_id : String := ""
  title : String := ""
  address : String := ""
  rent_monthly : ℤ := 0
  area : ℚ := 0
  room_type : String := ""
  floor : String := ""
  latitude : ℚ := 0
  longitude : ℚ := 0
  building_type : String := ""
  property_category : String := ""
  upload_week : String := ""
  status : String := ""
  weeks_active : ℤ := 0
  first_seen_week : String := ""
  disappeared_week : String := ""
  distance : ℚ := 0
deriving DecidableEq

/-! ### Reconciliation engine: `calculate_property_status` (834-916)

CSV loading for a fixed partition is abstracted by a function
`loadWeek : String → List PropertyRecord` (what `load_csv_data` returns
for a given week).  `get_all_week_ids` is abstracted by the `allWeeks`
parameter (distinct week ids in descending order). -/

/-- `load_property_ids_for_week`: ids of a week's records, empty ids
dropped (Python builds `set(... if p.get('property_id'))`; only
membership in this collection is ever used). -/
def idsOfProps (l : List PropertyRecord) : List String :=
  l.filterMap fun p => if p.property_id = "" then none else some p.property_id

/-- Id set of one prior week, as used by the lookback pass. -/
def hist_ids (loadWeek : String → List PropertyRecord) (w : String) : List String :=
  idsOfProps (loadWeek w)

/-- `all_weeks.index(current_week_id)`: index of the first occurrence. -/
def firstIndexOf (w : String) : List String → ℕ
  | [] => 0
  | x :: xs => if x = w then 0 else firstIndexOf w xs + 1

/-- `all_weeks[current_week_index + 1 : current_week_index + 11]`:
up to ten weeks older than the current one, most recent first. -/
def lookback_window (allWeeks : List String) (w : String) : List String :=
  (allWeeks.drop (firstIndexOf w allWeeks + 1)).take 10

/-- Tag a record as newly appeared this week. -/
def newTag (w : String) (p : PropertyRecord) : PropertyRecord :=
  { p with status := "new", weeks_active := 1, first_seen_week := w }

/-- Insertion into the Python dict `{p['property_id']: p}`: the key
keeps its first position, the stored record becomes the latest one. -/
def upsertRec (r : PropertyRecord) : List PropertyRecord → List PropertyRecord
  | [] => [r]
  | x :: xs => if x.property_id = r.property_id then r :: xs else x :: upsertRec r xs

/-- `property_dict = {p['property_id']: p for p in current_properties
if p.get('property_id')}` as an association list in key order. -/
def buildPropertyDict (l : List PropertyRecord) : List PropertyRecord :=
  l.foldl (fun acc p => if p.property_id = "" then acc else upsertRec p acc) []

/-- The history scan `for week in reversed(history_weeks)`: counts the
weeks containing the id and overwrites `first_seen_week` on each hit. -/
def seenFold (histIds : String → List String) (history : List String)
    (currentWeek pid : String) : ℕ × String :=
  history.reverse.foldl
    (fun st w => if pid ∈ histIds w then (st.1 + 1, w) else st)
    (0, currentWeek)

/-- Status assignment for one current record from its history scan. -/
def applyStatus (histIds : String → List String) (history : List String)
    (currentWeek : String) (p : PropertyRecord) : PropertyRecord :=
  let st := seenFold histIds history currentWeek p.property_id
  if st.1 = 0 then newTag currentWeek p
  else { p with status := "active", weeks_active := (st.1 : ℤ) + 1, first_seen_week := st.2 }

/-- The loop over `property_dict.items()`: every deduplicated current
record, status fields assigned from the history scan. -/
def reconciledBase (loadWeek : String → List PropertyRecord)
    (allWeeks : List String) (currentWeek : String)
    (props : List PropertyRecord) : List PropertyRecord :=
  (buildPropertyDict props).map
    (applyStatus (hist_ids loadWeek) (lookback_window allWeeks currentWeek) currentWeek)

/-- The vanished-record pass: ids of the single most recent prior week
minus the current ids; the prior week is re-loaded in full and each
vanished record is re-tagged inactive. -/
def vanishedRecords (loadWeek : String → List PropertyRecord)
    (allWeeks : List String) (currentWeek : String)
    (props : List PropertyRecord) : List PropertyRecord :=
  match lookback_window allWeeks currentWeek with
  | [] => []
  | lastWeek :: _ =>
    let disappeared := (hist_ids loadWeek lastWeek).filter fun i => i ∉ idsOfProps props
    if disappeared = [] then []
    else
      ((loadWeek lastWeek).filter fun p => p.property_id ∈ disappeared).map
        fun p => { p with status := "inactive", weeks_active := 0,
                          disappeared_week := currentWeek }

/-- `calculate_property_status` (main_v4.py 834-916). -/
def calculate_property_status (loadWeek : String → List PropertyRecord)
    (allWeeks : List String) (currentWeek : String)
    (props : List PropertyRecord) : List PropertyRecord :=
  if allWeeks = [] ∨ currentWeek ∉ allWeeks then
    props.map (newTag currentWeek)
  else
    reconciledBase loadWeek allWeeks currentWeek props
      ++ vanishedRecords loadWeek allWeeks currentWeek props

/-- The duplicate-removal loop of `analysis_v4` (1128-1136): keep the
first record per id, drop records with an empty id. -/
def dedupFirstGo (seen : List String) : List PropertyRecord → List PropertyRecord
  | [] => []
  | p :: ps =>
    if p.property_id ≠ "" ∧ p.property_id ∉ seen then
      p :: dedupFirstGo (p.property_id :: seen) ps
    else dedupFirstGo seen ps

/-- `analysis_v4` deduplication with an initially empty seen set. -/
def dedup_first (l : List PropertyRecord) : List PropertyRecord :=
  dedupFirstGo [] l

/-- The pipeline stage relevant to per-week uniqueness: reconciliation
followed by the analysis-level deduplication. -/
def reconcile_and_dedup (loadWeek : String → List PropertyRecord)
    (allWeeks : List String) (currentWeek : String)
    (props : List PropertyRecord) : List PropertyRecord :=
  dedup_first (calculate_property_status loadWeek allWeeks currentWeek props)

/-! ### Geo filter of `analysis_v4` (1138-1164)

`haversine_distance` is real-valued trigonometry; the filter logic is
independent of its values, so the distance function is an explicit
parameter `hav` of the embedding. -/

/-- The optional fine-grained room-type post-filter (1148-1162). -/
def room_filter (rt? : Option String) (p : PropertyRecord) : Bool :=
  match rt? with
  | none => true
  | some rt =>
    if rt = "全部" then true
    else if rt = "套房" then
      !(p.property_category ≠ "套房" && !(isSubstrB (("套房").data) p.room_type.data))
    else if rt = "2房" then
      !(!(isSubstrB (("2").data) p.room_type.data) && !(isSubstrB (("兩").data) p.room_type.data))
    else if rt = "3房" then
      !(!(isSubstrB (("3").data) p.room_type.data) && !(isSubstrB (("三").data) p.room_type.data))
    else if rt = "3房以上" then
      ['4', '5', '6', '7', '8', '9'].any (fun c => p.room_type.data.contains c)
        || ['四', '五', '六', '七', '八', '九'].any (fun c => p.room_type.data.contains c)
    else true

/-- The geo filter loop: skip `(0,0)` records, keep records whose
distance lies within the inclusive bounds, attach the distance, then
apply the room-type post-filter. -/
def filtered_properties (hav : ℚ → ℚ → ℚ → ℚ → ℚ) (qlat qlon dmin dmax : ℚ)
    (rt? : Option String) (props : List PropertyRecord) : List PropertyRecord :=
  props.filterMap fun p =>
    if p.latitude = 0 ∧ p.longitude = 0 then none
    else
      let d := hav qlat qlon p.latitude p.longitude
      if dmin ≤ d ∧ d ≤ dmax then
        let p' := { p with distance := d }
        if room_filter rt? p' then some p' else none
      else none

/-! ### Summary statistics of `analysis_v4` (1166-1187) -/

/-- `available_properties = new_properties + active_properties`. -/
def available_of (filtered : List PropertyRecord) : List PropertyRecord :=
  filtered.filter (fun p => p.status == "new") ++ filtered.filter (fun p => p.status == "active")

/-- Python `min` over a list (only used on non-empty lists). -/
def pyMinZ : List ℤ → ℤ
  | [] => 0
  | x :: xs => xs.foldl min x

/-- Python `max` over a list (only used on non-empty lists). -/
def pyMaxZ : List ℤ → ℤ
  | [] => 0
  | x :: xs => xs.foldl max x

/-- `room_type_counts[rt] = room_type_counts.get(rt, 0) + 1`: bump the
count of a key in an insertion-ordered association list. -/
def bumpCount (k : String) : List (String × ℕ) → List (String × ℕ)
  | [] => [(k, 1)]
  | (k', n) :: rest => if k' = k then (k', n + 1) :: rest else (k', n) :: bumpCount k rest

/-- The `room_type_counts` dict, keys in first-encounter order. -/
def room_counts (l : List PropertyRecord) : List (String × ℕ) :=
  l.foldl (fun acc p => bumpCount (if p.room_type = "" then "未知" else p.room_type) acc) []

/-- Stable insertion for a descending sort on counts: the new element
goes after every existing element with a count at least as large
(Python `sorted(..., key=lambda x: -x[1])` is stable). -/
def insertDescSnd (x : String × ℕ) : List (String × ℕ) → List (String × ℕ)
  | [] => [x]
  | y :: ys => if y.2 ≤ x.2 then x :: y :: ys else y :: insertDescSnd x ys

/-- Stable descending sort by count (the unique stable sort, hence the
same output as Python's Timsort with key `-count`). -/
def sortDescSnd : List (String × ℕ) → List (String × ℕ)
  | [] => []
  | x :: xs => insertDescSnd x (sortDescSnd xs)

/-- The summary block computed by `analysis_v4` from the filtered set. -/
structure RentalSummary where
  total_properties : ℕ
  available_count : ℕ
  inactive_count : ℕ
  avg_rent : ℚ
  min_rent : ℤ
  max_rent : ℤ
  avg_area : ℚ
  room_type_analysis : List (String × ℕ)
deriving DecidableEq

/-- Lines 1166-1187 of `analysis_v4`: statistics over the surviving,
non-inactive subset. -/
def summarize (filtered : List PropertyRecord) : RentalSummary :=
  let available := available_of filtered
  let rents := available.map (·.rent_monthly)
  let posArea := available.filter (fun p => (0 : ℚ) < p.area)
  { total_properties := filtered.length
    available_count := available.length
    inactive_count := (filtered.filter (fun p => p.status == "inactive")).length
    avg_rent := if available = [] then 0 else ((rents.sum : ℤ) : ℚ) / available.length
    min_rent := if available = [] then 0 else pyMinZ rents
    max_rent := if available = [] then 0 else pyMaxZ rents
    avg_area := if available = [] then 0
      else ((posArea.map (·.area)).sum) / (max 1 posArea.length : ℕ)
    room_type_analysis := sortDescSnd (room_counts available) }

/-! ### Address enrichment in `process_dataframe` (930-935) -/

/-- Python `str.replace` with an empty pattern: the replacement is
inserted at every character boundary. -/
def pyReplaceEmpty (rep : List Char) : List Char → List Char
  | [] => rep
  | c :: cs => rep ++ c :: pyReplaceEmpty rep cs

/-- Python `str.replace` with a non-empty pattern: leftmost,
non-overlapping replacement of every occurrence.  Fuelled (initially by
the string length, enough since every step consumes a character). -/
def pyReplaceNEGo (old rep : List Char) : ℕ → List Char → List Char
  | 0, s => s
  | _ + 1, [] => []
  | fuel + 1, c :: cs =>
    if old ≠ [] ∧ isPrefixB old (c :: cs) = true then
      rep ++ pyReplaceNEGo old rep fuel ((c :: cs).drop old.length)
    else
      c :: pyReplaceNEGo old rep fuel cs

/-- Python `str.replace` for non-empty patterns. -/
def pyReplaceNE (old rep s : List Char) : List Char :=
  pyReplaceNEGo old rep s.length s

/-- Python `str.replace(old, rep)`. -/
def py_replace (old rep s : List Char) : List Char :=
  if old = [] then pyReplaceEmpty rep s else pyReplaceNE old rep s

/-- Lines 930-935 of `process_dataframe`: prepend the resolved city
when it is not already a prefix; when the resolved district is absent,
replace every occurrence of the city with city + district. -/
def enrich_address (city district raw : List Char) : List Char :=
  let a1 := if city ≠ [] ∧ ¬ isPrefixB city raw then city ++ raw else raw
  if district ≠ [] ∧ ¬ isSubstrB district a1 then
    py_replace city (city ++ district) a1
  else a1

/-! ### Concrete sample data used by witnesses and counterexamples -/

/-- `25°3'6"N 121°30'0"E`, a well-formed DMS pair. -/
def dmsSample : List Char :=
  ("25°3").data ++ [minuteMark] ++ ("6").data ++ [secondMark] ++ ("N 121°30").data
    ++ [minuteMark] ++ ("0").data ++ [secondMark] ++ ("E").data

/-- `1°0'1"N 2°0'0"E`: its exact latitude `1 + 1/3600` has an infinite
decimal expansion, separating the unrounded value from its 6-decimal
rounding. -/
def dmsTiny : List Char :=
  ("1°0").data ++ [minuteMark] ++ ("1").data ++ [secondMark] ++ ("N 2°0").data
    ++ [minuteMark] ++ ("0").data ++ [secondMark] ++ ("E").data

/-- A small filtered set: one new, one active and one inactive record,
used to witness the aggregation claim. -/
def flSample : List PropertyRecord :=
  [{ property_id := "a", status := "new", rent_monthly := 100, area := 10,
     room_type := "套房" },
   { property_id := "b", status := "active", rent_monthly := 200, area := 0,
     room_type := "2房" },
   { property_id := "c", status := "inactive", rent_monthly := 999, area := 5,
     room_type := "套房" }]

/-! ## Lemmas and claim theorems -/

/-- Every unparseable input falls through to the `(0, 0)` return. -/
lemma parse_dms_eq_zero (s : List Char) (h : dms_parseable s = false) :
    parse_dms_coordinate s = (0, 0) := by
  unfold parse_dms_coordinate
  by_cases hl : 2 ≤ (dms_matches s).length
  · have h' := h
    unfold dms_parseable at h'
    rcases h1 : lat_match s with _ | lm
    · simp [h1]
    · rcases h2 : lng_match s with _ | em
      · simp [h1, h2]
      · exfalso
        rw [h1, h2] at h'
        simp [hl] at h'
  · simp [hl]

/-- Every captured hemisphere is either an N/S or an E/W letter. -/
lemma isEW_eq_not_isNS (m : DMSMatch) : isEW m = !(isNS m) := by
  rcases m with ⟨d, mi, sec, dir⟩
  cases dir <;> rfl

/-- A string with exactly one N/S and one E/W match has exactly two
matches in total. -/
lemma two_matches_of_single (s : List Char) {lm em : DMSMatch}
    (h1 : (dms_matches s).filter isNS = [lm])
    (h2 : (dms_matches s).filter isEW = [em]) :
    (dms_matches s).length = 2 := by
  have hpart := List.length_eq_length_filter_add (l := dms_matches s) isNS
  have hcongr : (dms_matches s).filter (fun m => !(isNS m)) = (dms_matches s).filter isEW :=
    List.filter_congr (fun m _ => (isEW_eq_not_isNS m).symm)
  rw [hcongr, h1, h2] at hpart
  simpa using hpart

/-- Evaluation of the normalizer on a string with exactly one N/S and
one E/W component. -/
lemma parse_dms_of_single (s : List Char) (lm em : DMSMatch)
    (h1 : (dms_matches s).filter isNS = [lm])
    (h2 : (dms_matches s).filter isEW = [em]) :
    parse_dms_coordinate s =
      ((if lm.dir = Hemisphere.S then -(dmsValue lm) else dmsValue lm),
       (if em.dir = Hemisphere.W then -(dmsValue em) else dmsValue em)) := by
  have hlen := two_matches_of_single s h1 h2
  have hlm : lat_match s = some lm := by rw [lat_match, h1]; rfl
  have hem : lng_match s = some em := by rw [lng_match, h2]; rfl
  unfold parse_dms_coordinate
  simp [hlen, hlm, hem]

/-- C4: for every input string the coordinate normalizer (a total Lean
function, so it never raises) returns exactly (0, 0) whenever the input
cannot be parsed as coordinates, i.e. whenever the DMS extraction does
not produce at least two matches with both an N/S and an E/W component. -/
theorem coordinate_normalizer_fails_soft (s : List Char)
    (h : dms_parseable s = false) : parse_dms_coordinate s = (0, 0) :=
  parse_dms_eq_zero s h

/-- Witness for C4 at the non-coordinate input `"hello"`. -/
theorem coordinate_normalizer_fails_soft_witness :
    dms_parseable (("hello").data) = false
      ∧ parse_dms_coordinate (("hello").data) = (0, 0) :=
  ⟨by decide, coordinate_normalizer_fails_soft (("hello").data) (by decide)⟩

/-- C6 (amended): when DMS extraction fails, the normalizer returns
(0, 0) even when two or more numeric substrings are present; the code
contains no loose-decimal-pair fallback. -/
theorem loose_decimal_pair_absent (s : List Char)
    (hn : 2 ≤ (specNumericSubstrings s).length)
    (h : dms_parseable s = false) :
    parse_dms_coordinate s = (0, 0) :=
  parse_dms_eq_zero s h

/-- Witness for the amended C6 at the input `"25 121"`. -/
theorem loose_decimal_pair_absent_witness :
    2 ≤ (specNumericSubstrings (("25 121").data)).length
      ∧ parse_dms_coordinate (("25 121").data) = (0, 0) :=
  ⟨by decide, loose_decimal_pair_absent (("25 121").data) (by decide) (by decide)⟩

/-- Counterexample to C6 as stated: `"25 121"` has two numeric
substrings, 25 in the plausible latitude range and 121 in the plausible
longitude range, DMS extraction fails, and the normalizer still returns
(0, 0) rather than (25, 121). -/
theorem loose_decimal_pair_counterexample :
    specNumericSubstrings (("25 121").data) = [25, 121]
      ∧ ((21 : ℚ) ≤ 25 ∧ (25 : ℚ) ≤ 26) ∧ ((119 : ℚ) ≤ 121 ∧ (121 : ℚ) ≤ 123)
      ∧ dms_parseable (("25 121").data) = false
      ∧ parse_dms_coordinate (("25 121").data) = (0, 0) :=
  ⟨by decide, by norm_num, by norm_num, by decide, by decide⟩

/-- C7 (amended): on a string with exactly one well-formed N/S and one
E/W DMS component, the normalizer returns deg + min/60 + sec/3600,
negated for S respectively W, without any rounding. -/
theorem dms_conversion_unrounded (s : List Char) (lm em : DMSMatch)
    (h1 : (dms_matches s).filter isNS = [lm])
    (h2 : (dms_matches s).filter isEW = [em]) :
    parse_dms_coordinate s =
      ((if lm.dir = Hemisphere.S then -((lm.deg : ℚ) + (lm.minu : ℚ) / 60 + lm.sec / 3600)
        else (lm.deg : ℚ) + (lm.minu : ℚ) / 60 + lm.sec / 3600),
       (if em.dir = Hemisphere.W then -((em.deg : ℚ) + (em.minu : ℚ) / 60 + em.sec / 3600)
        else (em.deg : ℚ) + (em.minu : ℚ) / 60 + em.sec / 3600)) :=
  parse_dms_of_single s lm em h1 h2

/-- Witness for the amended C7: `25°3'6"N 121°30'0"E` converts to
exactly (25 + 3/60 + 6/3600, 121 + 30/60) = (15031/600, 243/2). -/
theorem dms_conversion_unrounded_witness :
    parse_dms_coordinate dmsSample = (15031 / 600, 243 / 2) := by
  have h := dms_conversion_unrounded dmsSample ⟨25, 3, 6, Hemisphere.N⟩
    ⟨121, 30, 0, Hemisphere.E⟩ (by decide) (by decide)
  rw [h]
  norm_num
  exact ⟨by decide, by decide⟩

/-- Counterexample to C7 as stated: for `1°0'1"N 2°0'0"E` the code
returns the exact value 1 + 1/3600 = 3601/3600, which differs from its
6-decimal-place rounding, so no rounding is performed. -/
theorem dms_rounding_counterexample :
    parse_dms_coordinate dmsTiny = (3601 / 3600, 2)
      ∧ round6 (3601 / 3600) ≠ (3601 / 3600 : ℚ) := by
  constructor
  · have h := parse_dms_of_single dmsTiny ⟨1, 0, 1, Hemisphere.N⟩
      ⟨2, 0, 0, Hemisphere.E⟩ (by decide) (by decide)
    rw [h]
    norm_num [dmsValue]
    exact ⟨by decide, by decide⟩
  · rw [round6, round_eq]
    norm_num

/-! ### Lemmas about the deduplicating dictionary and the id sets -/

/-- Membership in a week's id collection. -/
lemma mem_idsOfProps {pid : String} {l : List PropertyRecord} :
    pid ∈ idsOfProps l ↔ pid ≠ "" ∧ ∃ p ∈ l, p.property_id = pid := by
  unfold idsOfProps
  rw [List.mem_filterMap]
  constructor
  · rintro ⟨p, hp, hf⟩
    by_cases h : p.property_id = ""
    · simp [h] at hf
    · rw [if_neg h, Option.some_inj] at hf
      exact ⟨hf ▸ h, p, hp, hf⟩
  · rintro ⟨hne, p, hp, hpe⟩
    exact ⟨p, hp, by rw [if_neg (hpe ▸ hne), hpe]⟩

/-- Replacing the stored record of a key yields that key's unique
entry, provided the association list held at most one entry for it. -/
lemma filter_upsert_self {r : PropertyRecord} {acc : List PropertyRecord}
    (hu : (acc.filter (fun p => p.property_id == r.property_id)).length ≤ 1) :
    (upsertRec r acc).filter (fun p => p.property_id == r.property_id) = [r] := by
  induction acc with
  | nil => simp [upsertRec]
  | cons x xs ih =>
    by_cases hx : x.property_id = r.property_id
    · rw [upsertRec, if_pos hx]
      rw [List.filter_cons_of_pos (by simp [hx]), List.length_cons] at hu
      have hnil : xs.filter (fun p => p.property_id == r.property_id) = [] := by
        rw [← List.length_eq_zero]
        omega
      rw [List.filter_cons_of_pos (by simp), hnil]
    · rw [upsertRec, if_neg hx]
      rw [List.filter_cons_of_neg (by simp [hx])] at hu
      rw [List.filter_cons_of_neg (by simp [hx]), ih hu]

/-- Upserting a record leaves the entries of every other key alone. -/
lemma filter_upsert_other {r : PropertyRecord} {k : String}
    (hk : r.property_id ≠ k) (acc : List PropertyRecord) :
    (upsertRec r acc).filter (fun p => p.property_id == k)
      = acc.filter (fun p => p.property_id == k) := by
  induction acc with
  | nil => simp [upsertRec, hk]
  | cons x xs ih =>
    by_cases hx : x.property_id = r.property_id
    · rw [upsertRec, if_pos hx]
      rw [List.filter_cons_of_neg (by simp [hk]),
        List.filter_cons_of_neg (by simp [hx ▸ hk])]
    · rw [upsertRec, if_neg hx]
      by_cases hxk : x.property_id = k
      · rw [List.filter_cons_of_pos (by simp [hxk]),
          List.filter_cons_of_pos (by simp [hxk]), ih]
      · rw [List.filter_cons_of_neg (by simp [hxk]),
          List.filter_cons_of_neg (by simp [hxk]), ih]

/-- One `foldl` step of the dict construction on a snoc list. -/
lemma buildDict_append_singleton (l : List PropertyRecord) (r : PropertyRecord) :
    buildPropertyDict (l ++ [r])
      = if r.property_id = "" then buildPropertyDict l
        else upsertRec r (buildPropertyDict l) := by
  unfold buildPropertyDict
  rw [List.foldl_append]
  rfl

/-- The dict holds exactly the last occurrence of every non-empty key
(Python dict comprehension semantics: later values overwrite). -/
lemma buildDict_filter (k : String) (hk : k ≠ "") (l : List PropertyRecord) :
    (buildPropertyDict l).filter (fun p => p.property_id == k)
      = ((l.filter (fun p => p.property_id == k)).getLast?).toList := by
  induction l using List.reverseRecOn with
  | nil => simp [buildPropertyDict]
  | append_singleton xs r ih =>
    rw [buildDict_append_singleton, List.filter_append]
    by_cases hr : r.property_id = ""
    · rw [if_pos hr, List.filter_cons_of_neg (by simp [hr, Ne.symm hk]),
        List.filter_nil, List.append_nil, ih]
    · rw [if_neg hr]
      by_cases hrk : r.property_id = k
      · have hu : ((buildPropertyDict xs).filter
            (fun p => p.property_id == r.property_id)).length ≤ 1 := by
          rw [hrk, ih]
          cases (xs.filter (fun p => p.property_id == k)).getLast? <;> simp
        rw [← hrk, filter_upsert_self hu, hrk,
          List.filter_cons_of_pos (by simp [hrk]), List.filter_nil,
          List.getLast?_append_cons, List.getLast?_singleton]
        rfl
      · rw [filter_upsert_other hrk, List.filter_cons_of_neg (by simp [hrk]),
          List.filter_nil, List.append_nil, ih]

/-- The analysis-level deduplication keeps, for every non-empty key not
yet seen, exactly the first record with that key. -/
lemma dedupGo_filter (k : String) (hk : k ≠ "") :
    ∀ (l : List PropertyRecord) (seen : List String),
      (dedupFirstGo seen l).filter (fun p => p.property_id == k)
        = if k ∈ seen then []
          else (l.filter (fun p => p.property_id == k)).take 1 := by
  intro l
  induction l with
  | nil => intro seen; simp [dedupFirstGo]
  | cons p ps ih =>
    intro seen
    unfold dedupFirstGo
    by_cases hcond : p.property_id ≠ "" ∧ p.property_id ∉ seen
    · rw [if_pos hcond]
      by_cases hpk : p.property_id = k
      · have hks : k ∉ seen := hpk ▸ hcond.2
        rw [if_neg hks, List.filter_cons_of_pos (by simp [hpk]),
          List.filter_cons_of_pos (by simp [hpk]),
          ih (p.property_id :: seen), if_pos (by simp [hpk]), List.take_succ_cons,
          List.take_zero]
      · rw [List.filter_cons_of_neg (by simp [hpk]),
          List.filter_cons_of_neg (by simp [hpk]), ih (p.property_id :: seen)]
        by_cases hks : k ∈ seen
        · rw [if_pos (by simp [hks]), if_pos hks]
        · rw [if_neg ?_, if_neg hks]
          simp only [List.mem_cons, not_or]
          exact ⟨fun h => hpk h.symm, hks⟩
    · rw [if_neg hcond]
      rw [ih seen]
      by_cases hpk : p.property_id = k
      · have hks : k ∈ seen := by
          rcases not_and_or.mp hcond with h | h
          · exact absurd (hpk ▸ not_ne_iff.mp h) hk
          · exact hpk ▸ not_not.mp h
        rw [if_pos hks, if_pos hks]
      · by_cases hks : k ∈ seen
        · rw [if_pos hks, if_pos hks]
        · rw [if_neg hks, if_neg hks, List.filter_cons_of_neg (by simp [hpk])]

/-- `dedup_first` keeps the first record of every non-empty key. -/
lemma dedup_first_filter (k : String) (hk : k ≠ "") (l : List PropertyRecord) :
    (dedup_first l).filter (fun p => p.property_id == k)
      = (l.filter (fun p => p.property_id == k)).take 1 := by
  rw [dedup_first, dedupGo_filter k hk l [], if_neg (by simp)]

/-- Filtering on the id commutes with an id-preserving map. -/
lemma filter_map_pid (f : PropertyRecord → PropertyRecord)
    (hf : ∀ p, (f p).property_id = p.property_id) (k : String)
    (l : List PropertyRecord) :
    (l.map f).filter (fun p => p.property_id == k)
      = (l.filter (fun p => p.property_id == k)).map f := by
  induction l with
  | nil => rfl
  | cons x xs ih =>
    by_cases hx : x.property_id = k
    · rw [List.map_cons, List.filter_cons_of_pos (by simp [hf, hx]),
        List.filter_cons_of_pos (by simp [hx]), List.map_cons, ih]
    · rw [List.map_cons, List.filter_cons_of_neg (by simp [hf, hx]),
        List.filter_cons_of_neg (by simp [hx]), ih]

/-- `applyStatus` never changes the id. -/
lemma applyStatus_pid (histIds : String → List String) (history : List String)
    (currentWeek : String) (p : PropertyRecord) :
    (applyStatus histIds history currentWeek p).property_id = p.property_id := by
  by_cases h : (seenFold histIds history currentWeek p.property_id).1 = 0 <;>
    simp [applyStatus, newTag, h]

/-- `newTag` never changes the id. -/
lemma newTag_pid (w : String) (p : PropertyRecord) :
    (newTag w p).property_id = p.property_id := rfl

/-! ### Lemmas about the history scan -/

/-- Weeks not containing the id leave the fold state untouched. -/
lemma foldl_seen_miss (histIds : String → List String) (pid : String) :
    ∀ (ws : List String) (st : ℕ × String), (∀ w ∈ ws, pid ∉ histIds w) →
      ws.foldl (fun st w => if pid ∈ histIds w then (st.1 + 1, w) else st) st = st := by
  intro ws
  induction ws with
  | nil => intro st _; rfl
  | cons w ws ih =>
    intro st h
    rw [List.foldl_cons, if_neg (h w (by simp))]
    exact ih st fun x hx => h x (by simp [hx])

/-- History scan when the id appears only in the most recent prior
week: one hit, `first_seen_week` ends at that week. -/
lemma seenFold_single (histIds : String → List String) (lastW currentW pid : String)
    (rest : List String) (hin : pid ∈ histIds lastW)
    (hrest : ∀ w ∈ rest, pid ∉ histIds w) :
    seenFold histIds (lastW :: rest) currentW pid = (1, lastW) := by
  unfold seenFold
  rw [List.reverse_cons, List.foldl_append,
    foldl_seen_miss histIds pid rest.reverse (0, currentW)
      (fun w hw => hrest w (by simpa using hw))]
  simp [hin]

/-- History scan when the id appears in no window week. -/
lemma seenFold_none (histIds : String → List String) (history : List String)
    (currentW pid : String) (h : ∀ w ∈ history, pid ∉ histIds w) :
    seenFold histIds history currentW pid = (0, currentW) := by
  unfold seenFold
  exact foldl_seen_miss histIds pid history.reverse (0, currentW)
    fun w hw => h w (by simpa using hw)

/-- Unfolding of the reconciliation for an indexed week. -/
lemma calc_status_of_mem (loadWeek : String → List PropertyRecord)
    (allWeeks : List String) (W : String) (props : List PropertyRecord)
    (hW : W ∈ allWeeks) :
    calculate_property_status loadWeek allWeeks W props
      = reconciledBase loadWeek allWeeks W props
          ++ vanishedRecords loadWeek allWeeks W props := by
  unfold calculate_property_status
  rw [if_neg]
  rintro (h | h)
  · exact (List.ne_nil_of_mem hW) h
  · exact h hW

/-- Taking one element of a mapped option-list. -/
lemma take_one_map_toList {α β : Type} (f : α → β) (o : Option α) :
    ((o.toList).map f).take 1 = (o.map f).toList := by
  cases o <;> rfl

/-- Taking one element of a mapped list is the mapped head. -/
lemma take_one_map_eq_head {α β : Type} (f : α → β) (l : List α) :
    (l.map f).take 1 = (l.head?.map f).toList := by
  cases l <;> rfl

/-- The record stored in the dict for a non-empty id that occurs in the
week's load: it exists, is in the dict, and carries that id. -/
lemma exists_dict_record {pid : String} {props : List PropertyRecord}
    (hcur : pid ∈ idsOfProps props) :
    ∃ r ∈ buildPropertyDict props, r.property_id = pid := by
  obtain ⟨hne, p0, hp0, hpid0⟩ := mem_idsOfProps.mp hcur
  have hnil : props.filter (fun q => q.property_id == pid) ≠ [] := by
    intro h
    have hm : p0 ∈ props.filter (fun q => q.property_id == pid) :=
      List.mem_filter.mpr ⟨hp0, by simp [hpid0]⟩
    rw [h] at hm
    simp at hm
  have hfil := buildDict_filter pid hne props
  rw [List.getLast?_eq_getLast_of_ne_nil hnil] at hfil
  have hmem : (props.filter (fun q => q.property_id == pid)).getLast hnil
      ∈ (buildPropertyDict props).filter (fun q => q.property_id == pid) := by
    rw [hfil]
    simp [Option.toList]
  refine ⟨_, (List.mem_filter.mp hmem).1, ?_⟩
  have := (List.mem_filter.mp hmem).2
  simpa using this

/-- C1: with at least one indexed prior week, reconciliation returns a
record seen in W and (among the window) only in W-1 as `active` with
`weeks_active = 2`; a record seen in W-1 but not in W is appended as
`inactive` with `weeks_active = 0` and `disappeared_week = W`; a record
seen in no window week is returned as `new` with `weeks_active = 1`. -/
theorem reconciliation_lifecycle (loadWeek : String → List PropertyRecord)
    (allWeeks : List String) (W : String) (props : List PropertyRecord)
    (lastW : String) (rest : List String)
    (hW : W ∈ allWeeks)
    (hwin : lookback_window allWeeks W = lastW :: rest) :
    (∀ pid, pid ∈ idsOfProps props → pid ∈ hist_ids loadWeek lastW →
      (∀ w ∈ rest, pid ∉ hist_ids loadWeek w) →
      (calculate_property_status loadWeek allWeeks W props).any
        (fun q => decide (q.property_id = pid ∧ q.status = "active"
          ∧ q.weeks_active = 2)) = true)
    ∧ (∀ pid, pid ∈ hist_ids loadWeek lastW → pid ∉ idsOfProps props →
      (calculate_property_status loadWeek allWeeks W props).any
        (fun q => decide (q.property_id = pid ∧ q.status = "inactive"
          ∧ q.weeks_active = 0 ∧ q.disappeared_week = W)) = true)
    ∧ (∀ pid, pid ∈ idsOfProps props →
      (∀ w ∈ lookback_window allWeeks W, pid ∉ hist_ids loadWeek w) →
      (calculate_property_status loadWeek allWeeks W props).any
        (fun q => decide (q.property_id = pid ∧ q.status = "new"
          ∧ q.weeks_active = 1)) = true) := by
  have hcalc := calc_status_of_mem loadWeek allWeeks W props hW
  refine ⟨?_, ?_, ?_⟩
  · intro pid hcur hlast hrest
    obtain ⟨r, hrmem, hrpid⟩ := exists_dict_record hcur
    have hsf : seenFold (hist_ids loadWeek) (lookback_window allWeeks W) W
        pid = (1, lastW) := by
      rw [hwin]
      exact seenFold_single _ lastW W pid rest hlast hrest
    rw [List.any_eq_true]
    refine ⟨applyStatus (hist_ids loadWeek) (lookback_window allWeeks W) W r, ?_, ?_⟩
    · rw [hcalc]
      exact List.mem_append_left _ (List.mem_map_of_mem _ hrmem)
    · have happ : applyStatus (hist_ids loadWeek) (lookback_window allWeeks W) W r
          = { r with status := "active", weeks_active := 2, first_seen_week := lastW } := by
        unfold applyStatus
        rw [hrpid, hsf]
        norm_num
      rw [happ]
      simp [hrpid]
  · intro pid hlast hncur
    obtain ⟨hne, r0, hr0, hpid0⟩ := mem_idsOfProps.mp hlast
    have hdis : pid ∈ (hist_ids loadWeek lastW).filter
        (fun i => decide (i ∉ idsOfProps props)) :=
      List.mem_filter.mpr ⟨hlast, by simpa using hncur⟩
    rw [List.any_eq_true]
    refine ⟨{ r0 with status := "inactive", weeks_active := 0, disappeared_week := W },
      ?_, by simp [hpid0]⟩
    rw [hcalc]
    apply List.mem_append_right
    unfold vanishedRecords
    rw [hwin]
    simp only
    rw [if_neg (List.ne_nil_of_mem hdis)]
    exact List.mem_map_of_mem _ (List.mem_filter.mpr ⟨hr0, by simpa [hpid0] using hdis⟩)
  · intro pid hcur hnone
    obtain ⟨r, hrmem, hrpid⟩ := exists_dict_record hcur
    have hsf : seenFold (hist_ids loadWeek) (lookback_window allWeeks W) W
        pid = (0, W) :=
      seenFold_none _ _ _ _ hnone
    rw [List.any_eq_true]
    refine ⟨applyStatus (hist_ids loadWeek) (lookback_window allWeeks W) W r, ?_, ?_⟩
    · rw [hcalc]
      exact List.mem_append_left _ (List.mem_map_of_mem _ hrmem)
    · have happ : applyStatus (hist_ids loadWeek) (lookback_window allWeeks W) W r
          = newTag W r := by
        unfold applyStatus
        rw [hrpid, hsf]
        simp
      rw [happ]
      simp [newTag, hrpid]

/-- Witness for C1 on a two-week corpus: id `A` is active with
`weeks_active = 2`, id `B` (only in the prior week) is inactive with
`disappeared_week = 2604`, id `C` (only current) is new. -/
theorem reconciliation_lifecycle_witness :
    ((calculate_property_status
        (fun w => if w = "2603"
          then [{ property_id := "A" }, { property_id := "B" }] else [])
        (["2604", "2603"]) ("2604")
        [{ property_id := "A" }, { property_id := "C" }]).any
      (fun q => decide (q.property_id = "A" ∧ q.status = "active"
        ∧ q.weeks_active = 2)) = true)
    ∧ ((calculate_property_status
        (fun w => if w = "2603"
          then [{ property_id := "A" }, { property_id := "B" }] else [])
        (["2604", "2603"]) ("2604")
        [{ property_id := "A" }, { property_id := "C" }]).any
      (fun q => decide (q.property_id = "B" ∧ q.status = "inactive"
        ∧ q.weeks_active = 0 ∧ q.disappeared_week = "2604")) = true)
    ∧ ((calculate_property_status
        (fun w => if w = "2603"
          then [{ property_id := "A" }, { property_id := "B" }] else [])
        (["2604", "2603"]) ("2604")
        [{ property_id := "A" }, { property_id := "C" }]).any
      (fun q => decide (q.property_id = "C" ∧ q.status = "new"
        ∧ q.weeks_active = 1)) = true) := by
  have h := reconciliation_lifecycle
    (fun w => if w = "2603"
      then [{ property_id := "A" }, { property_id := "B" }] else [])
    (["2604", "2603"]) ("2604")
    [{ property_id := "A" }, { property_id := "C" }]
    ("2603") [] (by decide) (by decide)
  refine ⟨h.1 ("A") (by decide) (by decide) (by simp), ?_, ?_⟩
  · exact h.2.1 ("B") (by decide) (by decide)
  · exact h.2.2 ("C") (by decide) (by decide)

/-- C2 (amended): per id the pipeline keeps exactly one record; when
the requested week is in the index, the reconciliation dict collapses
duplicates so the last occurrence survives; only when reconciliation is
skipped does the analysis-level deduplication keep the first one. -/
theorem dedup_keeps_one_record (loadWeek : String → List PropertyRecord)
    (allWeeks : List String) (W : String) (props : List PropertyRecord)
    (k : String) (hk : k ≠ "")
    (hdup : 2 ≤ (props.filter (fun p => p.property_id == k)).length) :
    (W ∈ allWeeks →
      (reconcile_and_dedup loadWeek allWeeks W props).filter
          (fun p => p.property_id == k)
        = ((props.filter (fun p => p.property_id == k)).getLast?.map
            (applyStatus (hist_ids loadWeek) (lookback_window allWeeks W) W)).toList)
    ∧ (W ∉ allWeeks →
      (reconcile_and_dedup loadWeek allWeeks W props).filter
          (fun p => p.property_id == k)
        = ((props.filter (fun p => p.property_id == k)).head?.map (newTag W)).toList) := by
  constructor
  · intro hW
    have hkmem : k ∈ idsOfProps props := by
      rcases hfl : props.filter (fun p => p.property_id == k) with _ | ⟨p0, ps⟩
      · rw [hfl] at hdup; simp at hdup
      · have : p0 ∈ props.filter (fun p => p.property_id == k) := by simp [hfl]
        have h0 := List.mem_filter.mp this
        exact mem_idsOfProps.mpr ⟨hk, p0, h0.1, by simpa using h0.2⟩
    unfold reconcile_and_dedup
    rw [calc_status_of_mem loadWeek allWeeks W props hW,
      dedup_first_filter k hk, List.filter_append]
    have hvan : (vanishedRecords loadWeek allWeeks W props).filter
        (fun p => p.property_id == k) = [] := by
      rw [List.filter_eq_nil_iff]
      intro q hq
      unfold vanishedRecords at hq
      rcases hcase : lookback_window allWeeks W with _ | ⟨lw, rest'⟩ <;> rw [hcase] at hq
      · simp at hq
      · simp only at hq
        split_ifs at hq with hdisnil
        · simp at hq
        · rw [List.mem_map] at hq
          obtain ⟨p, hp, rfl⟩ := hq
          have hpd := (List.mem_filter.mp hp).2
          simp only [decide_eq_true_eq] at hpd
          intro hqk
          simp only [beq_iff_eq] at hqk
          have : p.property_id ∈ (hist_ids loadWeek lw).filter
              (fun i => decide (i ∉ idsOfProps props)) := hpd
          have h2 := (List.mem_filter.mp this).2
          simp only [decide_eq_true_eq] at h2
          exact h2 (hqk ▸ hkmem)
    rw [hvan, List.append_nil]
    unfold reconciledBase
    rw [filter_map_pid _ (applyStatus_pid _ _ _) k, buildDict_filter k hk]
    exact take_one_map_toList _ _
  · intro hW
    unfold reconcile_and_dedup calculate_property_status
    rw [if_pos (Or.inr hW), dedup_first_filter k hk,
      filter_map_pid _ (newTag_pid W) k]
    exact take_one_map_eq_head _ _

/-- Witness for the amended C2: with the week indexed the kept record
carries rent 200 (the later duplicate); with the week unindexed the
kept record carries rent 100 (the first duplicate). -/
theorem dedup_keeps_one_record_witness :
    (((reconcile_and_dedup (fun _ => []) (["2604", "2603"]) ("2604")
        [{ property_id := "A", rent_monthly := 100 },
         { property_id := "A", rent_monthly := 200 }]).filter
        (fun p => p.property_id == "A")).map (fun q => q.rent_monthly) = [200])
    ∧ (((reconcile_and_dedup (fun _ => []) (["9999"]) ("2604")
        [{ property_id := "A", rent_monthly := 100 },
         { property_id := "A", rent_monthly := 200 }]).filter
        (fun p => p.property_id == "A")).map (fun q => q.rent_monthly) = [100]) := by
  constructor
  · rw [(dedup_keeps_one_record (fun _ => []) (["2604", "2603"]) ("2604")
      [{ property_id := "A", rent_monthly := 100 },
       { property_id := "A", rent_monthly := 200 }] ("A")
      (by decide) (by decide)).1 (by decide)]
    decide
  · rw [(dedup_keeps_one_record (fun _ => []) (["9999"]) ("2604")
      [{ property_id := "A", rent_monthly := 100 },
       { property_id := "A", rent_monthly := 200 }] ("A")
      (by decide) (by decide)).2 (by decide)]
    decide

/-- Counterexample to C2 as stated: two same-id rows with rents 100 and
200 (in that source order), the requested week indexed with one prior
week; the pipeline keeps exactly one record and it is the second
occurrence (rent 200), not the first. -/
theorem dedup_first_occurrence_counterexample :
    (reconcile_and_dedup (fun _ => []) (["2604", "2603"]) ("2604")
        [{ property_id := "A", rent_monthly := 100 },
         { property_id := "A", rent_monthly := 200 }]).map
        (fun q => (q.property_id, q.rent_monthly))
      = [(("A"), 200)] := by decide

/-- C3 evaluation at the failing input: id `P` appears in window weeks
2601 and 2603; the code returns `weeks_active = 3` (count + 1, as the
claim says) but `first_seen_week = "2603"`, the most recent prior
appearance, not the oldest week 2601 required by the claim. -/
theorem first_seen_week_eval :
    (calculate_property_status
        (fun w => if w = "2601" ∨ w = "2603" then [{ property_id := "P" }] else [])
        (["2604", "2603", "2602", "2601"]) ("2604")
        [{ property_id := "P" }]).map
        (fun q => (q.status, q.weeks_active, q.first_seen_week))
      = [(("active"), 3, ("2603"))] := by decide

/-- C10: whenever the requested week is not among the indexed week ids,
even with a non-empty index of other weeks, every current record is
returned as `new` with `weeks_active = 1` and `first_seen_week = W`,
and no `inactive` record is produced. -/
theorem unindexed_week_all_new (loadWeek : String → List PropertyRecord)
    (allWeeks : List String) (W : String) (props : List PropertyRecord)
    (h : W ∉ allWeeks) :
    calculate_property_status loadWeek allWeeks W props = props.map (newTag W)
      ∧ (calculate_property_status loadWeek allWeeks W props).all
          (fun q => decide (q.status = "new" ∧ q.weeks_active = 1
            ∧ q.first_seen_week = W)) = true := by
  have he : calculate_property_status loadWeek allWeeks W props
      = props.map (newTag W) := by
    unfold calculate_property_status
    rw [if_pos (Or.inr h)]
  refine ⟨he, ?_⟩
  rw [he, List.all_eq_true]
  intro q hq
  rw [List.mem_map] at hq
  obtain ⟨p, _, rfl⟩ := hq
  simp [newTag]

/-- Witness for C10 with a non-empty index that lacks the requested
week 2604. -/
theorem unindexed_week_all_new_witness :
    calculate_property_status (fun _ => [{ property_id := "Z" }])
        (["2603", "2602"]) ("2604") [{ property_id := "A" }]
      = [newTag ("2604") { property_id := "A" }] :=
  (unindexed_week_all_new (fun _ => [{ property_id := "Z" }])
    (["2603", "2602"]) ("2604") [{ property_id := "A" }] (by decide)).1

/-- C5: with no room-type restriction the geo filter keeps exactly the
records that are not at (0, 0) and whose distance lies within the
inclusive bounds `dmin ≤ d ≤ dmax` (each kept record carrying its
distance); and for every room-type argument, no record at (0, 0) ever
appears in the output, regardless of the requested bounds. -/
theorem geo_filter_inclusive_bounds (hav : ℚ → ℚ → ℚ → ℚ → ℚ)
    (qlat qlon dmin dmax : ℚ) (props : List PropertyRecord) :
    (filtered_properties hav qlat qlon dmin dmax none props
      = (props.filter fun p => !decide (p.latitude = 0 ∧ p.longitude = 0)
          && decide (dmin ≤ hav qlat qlon p.latitude p.longitude
            ∧ hav qlat qlon p.latitude p.longitude ≤ dmax)).map
          (fun p => { p with distance := hav qlat qlon p.latitude p.longitude }))
    ∧ ∀ rt?, (filtered_properties hav qlat qlon dmin dmax rt? props).all
        (fun q => !decide (q.latitude = 0 ∧ q.longitude = 0)) = true := by
  constructor
  · induction props with
    | nil => rfl
    | cons p ps ih =>
      by_cases h0 : p.latitude = 0 ∧ p.longitude = 0
      · simp only [filtered_properties, List.filterMap_cons, if_pos h0] at ih ⊢
        rw [List.filter_cons_of_neg (by simp [h0])]
        exact ih
      · by_cases hb : dmin ≤ hav qlat qlon p.latitude p.longitude
            ∧ hav qlat qlon p.latitude p.longitude ≤ dmax
        · simp only [filtered_properties, List.filterMap_cons, if_neg h0, if_pos hb,
            room_filter, if_true] at ih ⊢
          rw [List.filter_cons_of_pos (by simp [h0, hb]), List.map_cons, ih]
        · simp only [filtered_properties, List.filterMap_cons, if_neg h0, if_neg hb] at ih ⊢
          rw [List.filter_cons_of_neg (by simp [h0, hb])]
          exact ih
  · intro rt?
    rw [List.all_eq_true]
    intro q hq
    rw [filtered_properties, List.mem_filterMap] at hq
    obtain ⟨p, _, hf⟩ := hq
    by_cases h0 : p.latitude = 0 ∧ p.longitude = 0
    · rw [if_pos h0] at hf
      simp at hf
    · rw [if_neg h0] at hf
      simp only [] at hf
      split_ifs at hf with hb hr
      · rw [Option.some_inj] at hf
        rw [← hf]
        simpa using not_and_or.mp h0

/-! ### Lemmas for the aggregation claim -/

/-- The `new ++ active` concatenation is a permutation of the
non-inactive subset, provided every status is one of the three. -/
lemma avail_perm {l : List PropertyRecord}
    (hs : ∀ p ∈ l, p.status = "new" ∨ p.status = "active" ∨ p.status = "inactive") :
    (available_of l).Perm (l.filter (fun p => !(p.status == "inactive"))) := by
  induction l with
  | nil => simp [available_of]
  | cons p ps ih =>
    have hps : ∀ q ∈ ps, q.status = "new" ∨ q.status = "active" ∨ q.status = "inactive" :=
      fun q hq => hs q (by simp [hq])
    have hih := ih hps
    unfold available_of at hih ⊢
    rcases hs p (by simp) with hp | hp | hp
    · rw [List.filter_cons_of_pos (by rw [hp]; decide),
        List.filter_cons_of_neg (by rw [hp]; decide),
        List.filter_cons_of_pos (by rw [hp]; decide), List.cons_append]
      exact hih.cons p
    · rw [List.filter_cons_of_neg (by rw [hp]; decide),
        List.filter_cons_of_pos (by rw [hp]; decide),
        List.filter_cons_of_pos (by rw [hp]; decide)]
      exact List.perm_middle.trans (hih.cons p)
    · rw [List.filter_cons_of_neg (by rw [hp]; decide),
        List.filter_cons_of_neg (by rw [hp]; decide),
        List.filter_cons_of_neg (by rw [hp]; decide)]
      exact hih

/-- A min-fold never exceeds its initial accumulator. -/
lemma foldl_min_le_init : ∀ (xs : List ℤ) (a : ℤ), xs.foldl min a ≤ a := by
  intro xs
  induction xs with
  | nil => intro a; simp
  | cons x xs ih =>
    intro a
    rw [List.foldl_cons]
    exact le_trans (ih (min a x)) (min_le_left a x)

/-- A min-fold is a lower bound of the list. -/
lemma foldl_min_le_mem : ∀ (xs : List ℤ) (a x : ℤ), x ∈ xs → xs.foldl min a ≤ x := by
  intro xs
  induction xs with
  | nil => intro a x h; simp at h
  | cons y ys ih =>
    intro a x hx
    rw [List.foldl_cons]
    rcases List.mem_cons.mp hx with rfl | h
    · exact le_trans (foldl_min_le_init ys (min a x)) (min_le_right a x)
    · exact ih (min a y) x h

/-- A min-fold returns the accumulator or a list element. -/
lemma foldl_min_mem : ∀ (xs : List ℤ) (a : ℤ), xs.foldl min a = a ∨ xs.foldl min a ∈ xs := by
  intro xs
  induction xs with
  | nil => intro a; left; rfl
  | cons x xs ih =>
    intro a
    rw [List.foldl_cons]
    rcases ih (min a x) with h | h
    · rw [h]
      rcases min_choice a x with h2 | h2
      · left; exact h2
      · right; rw [h2]; simp
    · right; simp [h]

/-- Python `min` of a non-empty integer list is an element of it. -/
lemma pyMinZ_mem {l : List ℤ} (h : l ≠ []) : pyMinZ l ∈ l := by
  rcases l with _ | ⟨x, xs⟩
  · exact absurd rfl h
  · unfold pyMinZ
    rcases foldl_min_mem xs x with h2 | h2
    · simp [h2]
    · simp [h2]

/-- Python `min` is a lower bound. -/
lemma pyMinZ_le {l : List ℤ} (x : ℤ) (hx : x ∈ l) : pyMinZ l ≤ x := by
  rcases l with _ | ⟨y, ys⟩
  · simp at hx
  · unfold pyMinZ
    rcases List.mem_cons.mp hx with rfl | h
    · exact foldl_min_le_init ys x
    · exact foldl_min_le_mem ys y x h

/-- A max-fold is at least its initial accumulator. -/
lemma foldl_max_ge_init : ∀ (xs : List ℤ) (a : ℤ), a ≤ xs.foldl max a := by
  intro xs
  induction xs with
  | nil => intro a; simp
  | cons x xs ih =>
    intro a
    rw [List.foldl_cons]
    exact le_trans (le_max_left a x) (ih (max a x))

/-- A max-fold is an upper bound of the list. -/
lemma foldl_max_ge_mem : ∀ (xs : List ℤ) (a x : ℤ), x ∈ xs → x ≤ xs.foldl max a := by
  intro xs
  induction xs with
  | nil => intro a x h; simp at h
  | cons y ys ih =>
    intro a x hx
    rw [List.foldl_cons]
    rcases List.mem_cons.mp hx with rfl | h
    · exact le_trans (le_max_right a x) (foldl_max_ge_init ys (max a x))
    · exact ih (max a y) x h

/-- A max-fold returns the accumulator or a list element. -/
lemma foldl_max_mem : ∀ (xs : List ℤ) (a : ℤ), xs.foldl max a = a ∨ xs.foldl max a ∈ xs := by
  intro xs
  induction xs with
  | nil => intro a; left; rfl
  | cons x xs ih =>
    intro a
    rw [List.foldl_cons]
    rcases ih (max a x) with h | h
    · rw [h]
      rcases max_choice a x with h2 | h2
      · left; exact h2
      · right; rw [h2]; simp
    · right; simp [h]

/-- Python `max` of a non-empty integer list is an element of it. -/
lemma pyMaxZ_mem {l : List ℤ} (h : l ≠ []) : pyMaxZ l ∈ l := by
  rcases l with _ | ⟨x, xs⟩
  · exact absurd rfl h
  · unfold pyMaxZ
    rcases foldl_max_mem xs x with h2 | h2
    · simp [h2]
    · simp [h2]

/-- Python `max` is an upper bound. -/
lemma pyMaxZ_ge {l : List ℤ} (x : ℤ) (hx : x ∈ l) : x ≤ pyMaxZ l := by
  rcases l with _ | ⟨y, ys⟩
  · simp at hx
  · unfold pyMaxZ
    rcases List.mem_cons.mp hx with rfl | h
    · exact foldl_max_ge_init ys x
    · exact foldl_max_ge_mem ys y x h

/-- Membership after a stable descending insertion. -/
lemma mem_insertDescSnd {x y : String × ℕ} :
    ∀ {l : List (String × ℕ)}, y ∈ insertDescSnd x l ↔ y = x ∨ y ∈ l := by
  intro l
  induction l with
  | nil => simp [insertDescSnd]
  | cons z zs ih =>
    unfold insertDescSnd
    split_ifs with h
    · simp
    · simp only [List.mem_cons, ih]
      tauto

/-- Stable descending insertion preserves sortedness by count. -/
lemma pairwise_insertDescSnd {x : String × ℕ} {l : List (String × ℕ)}
    (h : List.Pairwise (fun a b => b.2 ≤ a.2) l) :
    List.Pairwise (fun a b => b.2 ≤ a.2) (insertDescSnd x l) := by
  induction l with
  | nil => simp [insertDescSnd]
  | cons z zs ih =>
    unfold insertDescSnd
    rcases List.pairwise_cons.mp h with ⟨hzall, hzs⟩
    split_ifs with hz
    · refine List.Pairwise.cons ?_ h
      intro y hy
      rcases List.mem_cons.mp hy with rfl | hy'
      · exact hz
      · exact le_trans (hzall y hy') hz
    · refine List.Pairwise.cons ?_ (ih hzs)
      intro y hy
      rcases mem_insertDescSnd.mp hy with rfl | hy'
      · exact le_of_lt (lt_of_not_ge hz)
      · exact hzall y hy'

/-- The breakdown sort is sorted by descending count. -/
lemma sorted_sortDescSnd (l : List (String × ℕ)) :
    List.Pairwise (fun a b => b.2 ≤ a.2) (sortDescSnd l) := by
  induction l with
  | nil => simp [sortDescSnd]
  | cons x xs ih =>
    unfold sortDescSnd
    exact pairwise_insertDescSnd ih

/-- Inserting an element of count `c` keeps it ahead of the existing
`c`-count elements (stability, positive case). -/
lemma filter_insertDescSnd_pos {x : String × ℕ} {c : ℕ} (hx : x.2 = c) :
    ∀ (l : List (String × ℕ)),
      (insertDescSnd x l).filter (fun e => e.2 == c)
        = x :: l.filter (fun e => e.2 == c) := by
  intro l
  induction l with
  | nil => simp [insertDescSnd, hx]
  | cons z zs ih =>
    unfold insertDescSnd
    split_ifs with hz
    · rw [List.filter_cons_of_pos (by simp [hx])]
    · have hzc : ¬(z.2 = c) := by
        have : c < z.2 := hx ▸ lt_of_not_ge hz
        omega
      rw [List.filter_cons_of_neg (by simp [hzc]), ih,
        List.filter_cons_of_neg (by simp [hzc])]

/-- Inserting an element of another count leaves the `c`-count
subsequence unchanged (stability, negative case). -/
lemma filter_insertDescSnd_neg {x : String × ℕ} {c : ℕ} (hx : ¬(x.2 = c)) :
    ∀ (l : List (String × ℕ)),
      (insertDescSnd x l).filter (fun e => e.2 == c)
        = l.filter (fun e => e.2 == c) := by
  intro l
  induction l with
  | nil => simp [insertDescSnd, hx]
  | cons z zs ih =>
    unfold insertDescSnd
    split_ifs with hz
    · rw [List.filter_cons_of_neg (by simp [hx])]
    · by_cases hzc : z.2 = c
      · rw [List.filter_cons_of_pos (by simp [hzc]),
          List.filter_cons_of_pos (by simp [hzc]), ih]
      · rw [List.filter_cons_of_neg (by simp [hzc]),
          List.filter_cons_of_neg (by simp [hzc]), ih]

/-- The breakdown sort is stable: elements of equal count appear in
their original (first-encounter) order. -/
lemma sortDescSnd_stable (l : List (String × ℕ)) (c : ℕ) :
    (sortDescSnd l).filter (fun e => e.2 == c) = l.filter (fun e => e.2 == c) := by
  induction l with
  | nil => rfl
  | cons x xs ih =>
    unfold sortDescSnd
    by_cases hx : x.2 = c
    · rw [filter_insertDescSnd_pos hx, ih, List.filter_cons_of_pos (by simp [hx])]
    · rw [filter_insertDescSnd_neg hx, ih, List.filter_cons_of_neg (by simp [hx])]

/-- C8: the summary statistics range over exactly the filtered records
whose status is not `inactive`: the available count is the size of that
subset, min/avg/max rent range over it, the area average divides the
sum of its positive areas by the number of its positive-area records,
and the room-type breakdown is sorted by descending count with ties in
first-encountered order. -/
theorem summary_over_non_inactive (filtered : List PropertyRecord)
    (hs : ∀ p ∈ filtered, p.status = "new" ∨ p.status = "active" ∨ p.status = "inactive")
    (hne : filtered.filter (fun p => !(p.status == "inactive")) ≠ []) :
    (summarize filtered).available_count
        = (filtered.filter (fun p => !(p.status == "inactive"))).length
    ∧ (summarize filtered).avg_rent
        = ((((filtered.filter (fun p => !(p.status == "inactive"))).map
              (·.rent_monthly)).sum : ℤ) : ℚ)
            / (filtered.filter (fun p => !(p.status == "inactive"))).length
    ∧ ((summarize filtered).min_rent
          ∈ (filtered.filter (fun p => !(p.status == "inactive"))).map (·.rent_monthly)
        ∧ ∀ r ∈ (filtered.filter (fun p => !(p.status == "inactive"))).map
            (·.rent_monthly), (summarize filtered).min_rent ≤ r)
    ∧ ((summarize filtered).max_rent
          ∈ (filtered.filter (fun p => !(p.status == "inactive"))).map (·.rent_monthly)
        ∧ ∀ r ∈ (filtered.filter (fun p => !(p.status == "inactive"))).map
            (·.rent_monthly), r ≤ (summarize filtered).max_rent)
    ∧ (summarize filtered).avg_area
        = (((filtered.filter (fun p => !(p.status == "inactive"))).filter
              (fun p => (0 : ℚ) < p.area)).map (·.area)).sum
            / (((filtered.filter (fun p => !(p.status == "inactive"))).filter
              (fun p => (0 : ℚ) < p.area)).length : ℚ)
    ∧ List.Pairwise (fun a b => b.2 ≤ a.2) ((summarize filtered).room_type_analysis)
    ∧ ∀ c, ((summarize filtered).room_type_analysis).filter (fun e => e.2 == c)
        = (room_counts (available_of filtered)).filter (fun e => e.2 == c) := by
  have hperm := avail_perm hs
  have hav : available_of filtered ≠ [] := by
    intro h
    apply hne
    have hlen := hperm.length_eq
    rw [h] at hlen
    exact List.length_eq_zero.mp (by simpa using hlen.symm)
  have hmapne : (available_of filtered).map (·.rent_monthly) ≠ [] := by
    intro h
    exact hav (List.map_eq_nil_iff.mp h)
  refine ⟨?_, ?_, ⟨?_, ?_⟩, ⟨?_, ?_⟩, ?_, ?_, ?_⟩
  · simp only [summarize]
    exact hperm.length_eq
  · simp only [summarize]
    rw [if_neg hav, (hperm.map (·.rent_monthly)).sum_eq, hperm.length_eq]
  · simp only [summarize]
    rw [if_neg hav]
    exact ((hperm.map (·.rent_monthly)).mem_iff).mp (pyMinZ_mem hmapne)
  · intro r hr
    simp only [summarize]
    rw [if_neg hav]
    exact pyMinZ_le r (((hperm.map (·.rent_monthly)).mem_iff).mpr hr)
  · simp only [summarize]
    rw [if_neg hav]
    exact ((hperm.map (·.rent_monthly)).mem_iff).mp (pyMaxZ_mem hmapne)
  · intro r hr
    simp only [summarize]
    rw [if_neg hav]
    exact pyMaxZ_ge r (((hperm.map (·.rent_monthly)).mem_iff).mpr hr)
  · simp only [summarize]
    rw [if_neg hav]
    have hposperm := hperm.filter (fun p => decide ((0 : ℚ) < p.area))
    rcases Nat.eq_zero_or_pos ((filtered.filter (fun p => !(p.status == "inactive"))).filter
        (fun p => decide ((0 : ℚ) < p.area))).length with hc | hc
    · have hna0 := List.length_eq_zero.mp hc
      have hav0 : (available_of filtered).filter (fun p => decide ((0 : ℚ) < p.area)) = [] := by
        have hl := hposperm.length_eq
        rw [hna0] at hl
        exact List.length_eq_zero.mp (by simpa using hl)
      rw [hav0, hna0]
      simp
    · have hmax : max 1 ((available_of filtered).filter
          (fun p => decide ((0 : ℚ) < p.area))).length
          = ((filtered.filter (fun p => !(p.status == "inactive"))).filter
              (fun p => decide ((0 : ℚ) < p.area))).length := by
        rw [hposperm.length_eq]
        omega
      rw [(hposperm.map (·.area)).sum_eq, hmax]
  · simp only [summarize]
    exact sorted_sortDescSnd _
  · intro c
    simp only [summarize]
    exact sortDescSnd_stable _ c

/-- Witness for C8 on `flSample` (rents 100 and 200 available, one
inactive record excluded): the available count is 2, the minimum rent
is one of the available rents, and the count-1 breakdown keeps the
first-encounter order. -/
theorem summary_over_non_inactive_witness :
    (summarize flSample).available_count = 2
    ∧ (summarize flSample).min_rent ∈ ([100, 200] : List ℤ)
    ∧ ((summarize flSample).room_type_analysis).filter (fun e => e.2 == 1)
        = (room_counts (available_of flSample)).filter (fun e => e.2 == 1) := by
  have h := summary_over_non_inactive flSample (by decide) (by decide)
  refine ⟨h.1.trans (by decide), ?_, h.2.2.2.2.2.2 1⟩
  have hm := h.2.2.1.1
  rw [show (flSample.filter (fun p => !(p.status == "inactive"))).map (·.rent_monthly)
      = ([100, 200] : List ℤ) from by decide] at hm
  exact hm

/-! ### Lemmas for the address-enrichment claim -/

/-- A list is a prefix of itself followed by anything. -/
lemma isPrefixB_append (l t : List Char) : isPrefixB l (l ++ t) = true := by
  induction l with
  | nil => rfl
  | cons c cs ih => simp [isPrefixB, ih]

/-- A prefix is a substring. -/
lemma isSubstrB_of_prefixB (n h : List Char) (hp : isPrefixB n h = true) :
    isSubstrB n h = true := by
  cases h with
  | nil =>
    cases n with
    | nil => rfl
    | cons a as => simp [isPrefixB] at hp
  | cons c cs =>
    unfold isSubstrB
    rw [hp]
    rfl

/-- A mid-list occurrence is a substring. -/
lemma isSubstrB_of_mid (n pre suf : List Char) :
    isSubstrB n (pre ++ (n ++ suf)) = true := by
  induction pre with
  | nil => exact isSubstrB_of_prefixB n (n ++ suf) (isPrefixB_append n suf)
  | cons c cs ih =>
    show (isPrefixB n (c :: (cs ++ (n ++ suf))) || isSubstrB n (cs ++ (n ++ suf))) = true
    rw [ih, Bool.or_true]

/-- Replacement with an empty pattern starts with the replacement. -/
lemma pyReplaceEmpty_shape (rep s : List Char) :
    ∃ t, pyReplaceEmpty rep s = rep ++ t := by
  cases s with
  | nil => exact ⟨[], by simp [pyReplaceEmpty]⟩
  | cons c cs => exact ⟨c :: pyReplaceEmpty rep cs, rfl⟩

/-- When the non-empty pattern is a prefix, the replacement result
starts with the replacement text. -/
lemma pyReplaceNE_shape (old rep s : List Char)
    (hold : old ≠ []) (hpre : isPrefixB old s = true) :
    ∃ t, pyReplaceNE old rep s = rep ++ t := by
  cases s with
  | nil =>
    cases old with
    | nil => exact absurd rfl hold
    | cons a as => simp [isPrefixB] at hpre
  | cons c cs =>
    unfold pyReplaceNE
    rw [List.length_cons]
    simp only [pyReplaceNEGo]
    rw [if_pos ⟨hold, hpre⟩]
    exact ⟨_, rfl⟩

/-- C9 (amended): when the resolved city is non-empty and not already a
prefix, the address becomes city ++ raw (exactly, when the district
step does not fire); and whenever the resolved district is non-empty,
the final address contains it — though it is inserted after every
occurrence of the city rather than exactly once. -/
theorem address_enrichment_amended (city district raw : List Char) :
    (city ≠ [] → isPrefixB city raw = false →
      (district = [] ∨ isSubstrB district (city ++ raw) = true) →
      enrich_address city district raw = city ++ raw)
    ∧ (district ≠ [] → isSubstrB district (enrich_address city district raw) = true) := by
  constructor
  · intro hc hp hd
    unfold enrich_address
    rw [if_pos (show city ≠ [] ∧ ¬ isPrefixB city raw from ⟨hc, by simp [hp]⟩)]
    rcases hd with hd | hd
    · rw [if_neg (by simp [hd])]
    · rw [if_neg (by simp [hd])]
  · intro hd
    unfold enrich_address
    set a1 := if city ≠ [] ∧ ¬ isPrefixB city raw then city ++ raw else raw with ha1
    by_cases hsub : isSubstrB district a1 = true
    · rw [if_neg (by simp [hsub])]
      exact hsub
    · rw [if_pos ⟨hd, by simpa using hsub⟩]
      by_cases hc : city = []
      · rw [py_replace, if_pos hc]
        obtain ⟨t, ht⟩ := pyReplaceEmpty_shape (city ++ district) a1
        rw [ht, hc, List.nil_append]
        exact isSubstrB_of_prefixB district (district ++ t) (isPrefixB_append district t)
      · rw [py_replace, if_neg hc]
        have hpre : isPrefixB city a1 = true := by
          rw [ha1]
          by_cases hp : isPrefixB city raw = true
          · rw [if_neg (by simp [hp])]
            exact hp
          · rw [if_pos ⟨hc, by simpa using hp⟩]
            exact isPrefixB_append city raw
        obtain ⟨t, ht⟩ := pyReplaceNE_shape city (city ++ district) a1 hc hpre
        rw [ht, List.append_assoc]
        exact isSubstrB_of_mid district city t

/-- Witness for the amended C9: with an empty district the address is
exactly the city-prefixed raw address; with district `cd` absent from
`abzz` the enriched address contains it. -/
theorem address_enrichment_amended_witness :
    enrich_address (("ab").data) [] (("zz").data) = ("abzz").data
    ∧ isSubstrB (("cd").data) (enrich_address (("ab").data) (("cd").data) (("zz").data))
        = true :=
  ⟨(address_enrichment_amended (("ab").data) [] (("zz").data)).1
      (by decide) (by decide) (Or.inl rfl),
   (address_enrichment_amended (("ab").data) (("cd").data) (("zz").data)).2 (by decide)⟩

/-- Counterexample to C9 as stated: city `ab`, district `cd`, raw
address `abzab` (the city occurs twice).  A single insertion would
yield a 7-character address; the code replaces every occurrence of the
city and returns the 9-character `abcdzabcd`, inserting the district
twice. -/
theorem district_single_insertion_counterexample :
    enrich_address (("ab").data) (("cd").data) (("abzab").data) = ("abcdzabcd").data
    ∧ (("abzab").data).length + (("cd").data).length = 7
    ∧ (("abcdzabcd").data).length = 9 :=
  ⟨by decide, by decide, by decide⟩

end RentalApp
